import Mathlib

/-!
Shallow embedding of the TLS trust-and-session core
(`source/common/ssl/context_impl.cc`) and proofs about its behavior.

Bytes are modelled as `Nat`, C++ strings as `List Char`, byte vectors as
`List Nat`.  Library-computed values (SHA-256 digests, `ASN1_TIME_diff`
results) are carried as fields of the certificate record, since the
crypto library is an external collaborator of this code.
-/

namespace Envoy
namespace Ssl

/-- OpenSSL flag `SSL_VERIFY_NONE`. -/
def SSL_VERIFY_NONE : Nat := 0

/-- OpenSSL flag `SSL_VERIFY_PEER`. -/
def SSL_VERIFY_PEER : Nat := 1

/-- OpenSSL flag `SSL_VERIFY_FAIL_IF_NO_PEER_CERT`. -/
def SSL_VERIFY_FAIL_IF_NO_PEER_CERT : Nat := 2

/-- One entry of a certificate's subject-alternative-name extension
(`GENERAL_NAME`): a DNS name, a URI, or an entry of any other type
(`GEN_IPADD`, `GEN_EMAIL`, ...), which `verifySubjectAltName` skips. -/
inductive GeneralName where
  | dns (s : List Char)
  | uri (s : List Char)
  | other
deriving DecidableEq, Repr

/-- A parsed X.509 certificate, as observed through the library calls the
code makes:
* `subjectAltNames` is `X509_get_ext_d2i(cert, NID_subject_alt_name, ...)`
  — `none` when the certificate has no SAN extension (null return);
* `sha256Digest` is `X509_digest(cert, EVP_sha256(), ...)`, the SHA-256
  of the full encoded certificate bytes;
* `diffToNotAfter` is the `days` output of
  `ASN1_TIME_diff(&days, &seconds, nullptr, X509_get_notAfter(cert))`,
  `none` when that call fails. -/
structure Certificate where
  subjectAltNames : Option (List GeneralName)
  sha256Digest : List Nat
  diffToNotAfter : Option Int
deriving DecidableEq, Repr

/-- Configuration fields of `ContextConfig` consulted by the verification
part of `ContextImpl::ContextImpl` (lines 46-76). -/
structure ContextConfig where
  caCertFile : List Char
  verifySubjectAltNameList : List (List Char)
  verifyCertificateHash : List Char
deriving DecidableEq, Repr

/-- The sequential computation of `verify_mode` in `ContextImpl::ContextImpl`:
start from `SSL_VERIFY_NONE`; a CA certificate file sets `SSL_VERIFY_PEER`;
a non-empty SAN list or certificate hash sets
`SSL_VERIFY_PEER | SSL_VERIFY_FAIL_IF_NO_PEER_CERT`. -/
def verifyModeOf (config : ContextConfig) : Nat :=
  let m := SSL_VERIFY_NONE
  let m := if config.caCertFile ≠ [] then SSL_VERIFY_PEER else m
  let m := if config.verifySubjectAltNameList ≠ [] then
    SSL_VERIFY_PEER ||| SSL_VERIFY_FAIL_IF_NO_PEER_CERT else m
  let m := if config.verifyCertificateHash ≠ [] then
    SSL_VERIFY_PEER ||| SSL_VERIFY_FAIL_IF_NO_PEER_CERT else m
  m

/-- The call to `SSL_CTX_set_cert_verify_callback` happens exactly under
`if (verify_mode != SSL_VERIFY_NONE)`. -/
def verifyCallbackRegistered (config : ContextConfig) : Bool :=
  verifyModeOf config ≠ SSL_VERIFY_NONE

/-- Model of `hash.erase(std::remove(hash.begin(), hash.end(), ':'), hash.end())`:
remove all `:` delimiters from the configured hex string. -/
def stripColons (s : List Char) : List Char := s.filter (fun c => c ≠ ':')

/-- Numeric value of one hex digit. -/
def hexDigitVal (c : Char) : Nat :=
  if '0' ≤ c ∧ c ≤ '9' then c.toNat - '0'.toNat
  else if 'a' ≤ c ∧ c ≤ 'f' then c.toNat - 'a'.toNat + 10
  else if 'A' ≤ c ∧ c ≤ 'F' then c.toNat - 'A'.toNat + 10
  else 0

/-- Modelled from the spec: `Hex::decode` (declared in `common/common/hex.h`,
whose implementation is not part of these sources) turns a hex string into
the corresponding byte vector, two hex digits per byte. -/
def hexDecode : List Char → List Nat
  | c1 :: c2 :: rest => (hexDigitVal c1 * 16 + hexDigitVal c2) :: hexDecode rest
  | _ => []

/-- Embedding of `ContextImpl::dNSNameMatch(dNSName, pattern)`.  Note the call site in
`verifySubjectAltName` passes the configured SAN string as `dNSName` and the
certificate's presented DNS entry as `pattern`, so the `*.` wildcard rule
below applies to the certificate's entry.  The branch test mirrors
`pattern_len > 1 && pattern[0] == '*' && pattern[1] == '.'`, and the final
comparison mirrors `dNSName.compare(off, pattern_len - 1, pattern + 1) == 0`
with `off = dNSName.length() - pattern_len + 1`. -/
def dNSNameMatch (dNSName : List Char) (pattern : List Char) : Bool :=
  if dNSName = pattern then
    true
  else
    match pattern with
    | '*' :: '.' :: _ =>
        if dNSName.length > pattern.length - 1 then
          decide (dNSName.drop (dNSName.length - (pattern.length - 1)) = pattern.drop 1)
        else
          false
    | _ => false

/-- The inner loops of `ContextImpl::verifySubjectAltName`: a DNS-type entry
is checked with `dNSNameMatch(config_san, dns_name)` against each configured
string; a URI-type entry only by exact equality; other types are skipped. -/
def altNameMatches (subjectAltNames : List (List Char)) : GeneralName → Bool
  | .dns dnsName => subjectAltNames.any (fun configSan => dNSNameMatch configSan dnsName)
  | .uri crtSan => subjectAltNames.any (fun configSan => configSan = crtSan)
  | .other => false

/-- Embedding of `ContextImpl::verifySubjectAltName`: `false` when the certificate has no
SAN extension (`altnames` null); otherwise scan the entries until one
matches. -/
def verifySubjectAltName (cert : Certificate) (subjectAltNames : List (List Char)) : Bool :=
  match cert.subjectAltNames with
  | none => false
  | some altnames => altnames.any (altNameMatches subjectAltNames)

/-- Embedding of `ContextImpl::verifyCertificateHash`: compare the certificate's SHA-256
digest (`X509_digest` over the full encoded certificate) with the expected
bytes. -/
def verifyCertificateHash (cert : Certificate) (expectedHash : List Nat) : Bool :=
  cert.sha256Digest = expectedHash

/-- The counters of `SslStats` touched by certificate verification. -/
structure SslStats where
  fail_verify_error : Nat
  fail_verify_san : Nat
  fail_verify_cert_hash : Nat
deriving DecidableEq, Repr

/-- The verification-relevant member state of `ContextImpl`:
`verify_subject_alt_name_list_` and `verify_certificate_hash_`. -/
structure VerifyContext where
  verify_subject_alt_name_list : List (List Char)
  verify_certificate_hash : List Nat
deriving DecidableEq, Repr

/-- How `ContextImpl::ContextImpl` fills the member state:
the SAN list is stored as-is, the configured hash string is stored with `:`
removed and hex-decoded. -/
def contextOf (config : ContextConfig) : VerifyContext :=
  { verify_subject_alt_name_list := config.verifySubjectAltNameList
    verify_certificate_hash := hexDecode (stripColons config.verifyCertificateHash) }

/-- Embedding of `ContextImpl::verifyCertificate`, with the stats sink made explicit:
returns the `int` result (0 reject, 1 accept) together with the updated
counters. -/
def verifyCertificate (ctx : VerifyContext) (cert : Certificate) (stats : SslStats) :
    Int × SslStats :=
  if ctx.verify_subject_alt_name_list ≠ [] ∧
      verifySubjectAltName cert ctx.verify_subject_alt_name_list = false then
    (0, { stats with fail_verify_san := stats.fail_verify_san + 1 })
  else if ctx.verify_certificate_hash ≠ [] ∧
      verifyCertificateHash cert ctx.verify_certificate_hash = false then
    (0, { stats with fail_verify_cert_hash := stats.fail_verify_cert_hash + 1 })
  else
    (1, stats)

/-- Splitting of the ALPN CSV string on `,`, as performed by the scan in
`ContextImpl::parseAlpnProtocols` (a segment boundary at every `,` and at the
end of the string; empty segments are kept). -/
def splitOnComma : List Char → List (List Char)
  | [] => [[]]
  | c :: rest =>
    if c = ',' then
      [] :: splitOnComma rest
    else
      match splitOnComma rest with
      | s :: ss => (c :: s) :: ss
      | [] => [[c]]

/-- Embedding of `ContextImpl::parseAlpnProtocols`.  The imperative loop writes, for each
comma-separated segment, its length at the segment's start slot (`out[start] =
i - start`) followed by the segment's bytes, producing exactly the
concatenation of `length :: bytes` blocks; it throws when the input length is
`>= 65535` or a segment is longer than 255. -/
def parseAlpnProtocols (alpn_protocols : List Char) : Except String (List Nat) :=
  if alpn_protocols = [] then
    .ok []
  else if alpn_protocols.length ≥ 65535 then
    .error "invalid ALPN protocol string"
  else if (splitOnComma alpn_protocols).any (fun seg => seg.length > 255) then
    .error "invalid ALPN protocol string"
  else
    .ok ((splitOnComma alpn_protocols).map
      (fun seg => seg.length :: seg.map Char.toNat)).flatten

/-- Length of the byte vector produced by a successful ALPN parse (0 for a
failed one); lets closed statements talk about the produced encoding. -/
def alpnOutputLength : Except String (List Nat) → Nat
  | .ok out => out.length
  | .error _ => 0

/-- First byte of the vector produced by a successful ALPN parse. -/
def alpnOutputHead : Except String (List Nat) → Option Nat
  | .ok out => out.head?
  | .error _ => none

/-- Embedding of `ServerContextImpl::SessionTicketKey` after parsing: 16-byte name,
32-byte HMAC key, 32-byte AES key. -/
structure SessionTicketKey where
  name : List Nat
  hmac_key : List Nat
  aes_key : List Nat
deriving DecidableEq, Repr

/-- The data carried by the `EnvoyException` thrown for a wrong-length ticket
key blob: "Incorrect TLS session ticket key length. Index {}, length {},
expected length {}." -/
structure TicketKeyLengthError where
  index : Nat
  observed : Nat
  expected : Nat
deriving DecidableEq, Repr

/-- The ticket-key parsing loop of `ServerContextImpl::ServerContextImpl`
starting at blob index `i`: reject a blob whose size differs from
`sizeof(SessionTicketKey) = 80`, otherwise split it into
name (16) ‖ hmac_key (32) ‖ aes_key (32). -/
def parseSessionTicketKeysFrom (i : Nat) :
    List (List Nat) → Except TicketKeyLengthError (List SessionTicketKey)
  | [] => .ok []
  | srcKey :: rest =>
    if srcKey.length ≠ 80 then
      .error { index := i, observed := srcKey.length, expected := 80 }
    else
      match parseSessionTicketKeysFrom (i + 1) rest with
      | .error e => .error e
      | .ok keys =>
        .ok ({ name := srcKey.take 16
               hmac_key := (srcKey.drop 16).take 32
               aes_key := (srcKey.drop 48).take 32 } :: keys)

/-- Ticket-key parsing over the whole configured blob list. -/
def parseSessionTicketKeys (blobs : List (List Nat)) :
    Except TicketKeyLengthError (List SessionTicketKey) :=
  parseSessionTicketKeysFrom 0 blobs

/-- The outputs `ServerContextImpl::sessionTicketProcess` writes through its
out-parameters: the `key_name` buffer, the `iv` buffer, the cipher context
(key and iv passed to `EVP_EncryptInit_ex`/`EVP_DecryptInit_ex`), and the
HMAC context (key passed to `HMAC_Init_ex`). -/
structure TicketState where
  key_name_out : Option (List Nat)
  iv_out : Option (List Nat)
  cipher_key : Option (List Nat)
  cipher_iv : Option (List Nat)
  hmac_key_used : Option (List Nat)
deriving DecidableEq, Repr

/-- No out-parameter written yet. -/
def emptyTicketState : TicketState :=
  { key_name_out := none, iv_out := none, cipher_key := none, cipher_iv := none
    hmac_key_used := none }

/-- The `encrypt == 1` branch of `sessionTicketProcess`: an empty key list
fails with -1; otherwise the front key's name is copied to `key_name`, a
fresh random iv (`fresh_iv`, the value produced by `RAND_bytes`) is written,
and AES-256-CBC / HMAC-SHA256 are initialized with the front key's material;
either initialization failing (`enc_init_ok` / `hmac_init_ok` false, the
library's failure outcome) returns -1. -/
def sessionTicketEncrypt (keys : List SessionTicketKey) (fresh_iv : List Nat)
    (enc_init_ok hmac_init_ok : Bool) : Int × TicketState :=
  match keys with
  | [] => (-1, emptyTicketState)
  | key :: _ =>
    let st := { emptyTicketState with
                  key_name_out := some key.name, iv_out := some fresh_iv }
    if enc_init_ok = false then
      (-1, st)
    else
      let st := { st with cipher_key := some key.aes_key, cipher_iv := some fresh_iv }
      if hmac_init_ok = false then
        (-1, st)
      else
        (1, { st with hmac_key_used := some key.hmac_key })

/-- The decrypt loop of `sessionTicketProcess`: scan the key list for the
embedded `key_name`; on the first match initialize HMAC then the cipher with
that key's material and return 1 when the match is the encryption key (list
front, `is_enc_key`), 2 otherwise; return 0 when no name matches. -/
def sessionTicketDecryptLoop (keys : List SessionTicketKey)
    (key_name iv : List Nat) (hmac_init_ok dec_init_ok : Bool)
    (is_enc_key : Bool) : Int × TicketState :=
  match keys with
  | [] => (0, emptyTicketState)
  | key :: rest =>
    if key.name = key_name then
      if hmac_init_ok = false then
        (-1, emptyTicketState)
      else
        let st := { emptyTicketState with hmac_key_used := some key.hmac_key }
        if dec_init_ok = false then
          (-1, st)
        else
          let st := { st with cipher_key := some key.aes_key, cipher_iv := some iv }
          if is_enc_key then (1, st) else (2, st)
    else
      sessionTicketDecryptLoop rest key_name iv hmac_init_ok dec_init_ok false

/-- The `encrypt == 0` branch of `sessionTicketProcess`: the scan starts with
`is_enc_key = true` ("first element is the encryption key"). -/
def sessionTicketDecrypt (keys : List SessionTicketKey) (key_name iv : List Nat)
    (hmac_init_ok dec_init_ok : Bool) : Int × TicketState :=
  sessionTicketDecryptLoop keys key_name iv hmac_init_ok dec_init_ok true

/-- Embedding of `ServerContextImpl::sessionTicketProcess` itself, branching on the
`encrypt` flag. -/
def sessionTicketProcess (keys : List SessionTicketKey) (encrypt : Bool)
    (key_name iv fresh_iv : List Nat) (cipher_init_ok hmac_init_ok : Bool) :
    Int × TicketState :=
  if encrypt then
    sessionTicketEncrypt keys fresh_iv cipher_init_ok hmac_init_ok
  else
    sessionTicketDecrypt keys key_name iv hmac_init_ok cipher_init_ok

/-- The bytes of the literal seed `"envoy"` fed first into the session-id
context digest. -/
def envoySeed : List Nat := "envoy".toList.map Char.toNat

/-- The byte stream fed to `EVP_DigestUpdate` by
`ServerContextImpl::ServerContextImpl` when computing the session-id
context: the seed; then, only when a CA certificate is configured, the CA
certificate's own SHA-256 digest, each configured SAN string's bytes in list
order, and the stored certificate-hash bytes. -/
def sessionContextInput (ca_cert : Option Certificate)
    (verify_subject_alt_name_list : List (List Char))
    (verify_certificate_hash : List Nat) : List Nat :=
  let md : List Nat := []
  let md := md ++ envoySeed
  match ca_cert with
  | none => md
  | some ca =>
    let md := md ++ ca.sha256Digest
    let md := verify_subject_alt_name_list.foldl
      (fun m name => m ++ name.map Char.toNat) md
    md ++ verify_certificate_hash

/-- The session-id context digest: `EVP_DigestFinal` of the stream above,
with SHA-256 supplied by the crypto library (`sha256` parameter). -/
def sessionContextDigest (sha256 : List Nat → List Nat)
    (ca_cert : Option Certificate)
    (verify_subject_alt_name_list : List (List Char))
    (verify_certificate_hash : List Nat) : List Nat :=
  sha256 (sessionContextInput ca_cert verify_subject_alt_name_list
    verify_certificate_hash)

/-- Embedding of `ContextImpl::getDaysUntilExpiration`: `std::numeric_limits<int>::max()`
for a missing certificate; the `days` output of `ASN1_TIME_diff` on success;
0 when that call fails. -/
def getDaysUntilExpiration : Option Certificate → Int
  | none => 2147483647
  | some cert =>
    match cert.diffToNotAfter with
    | some days => days
    | none => 0

/-- Embedding of `ContextImpl::daysUntilFirstCertExpires`: minimum over the CA certificate
and the certificate chain, clamped to 0 when negative so the `size_t` return
value is well defined. -/
def daysUntilFirstCertExpires (ca_cert cert_chain : Option Certificate) : Nat :=
  let d : Int := min (getDaysUntilExpiration cert_chain) (getDaysUntilExpiration ca_cert)
  if d < 0 then 0 else d.toNat

/-! ### Helper lemmas -/

/-- A list is a suffix of a longer-or-equal list exactly when dropping down to
its length reproduces it. -/
theorem suffix_iff_drop_eq {α : Type} (l1 l2 : List α) (h : l1.length ≤ l2.length) :
    l1 <:+ l2 ↔ l2.drop (l2.length - l1.length) = l1 := by
  constructor
  · rintro ⟨t, rfl⟩
    simp [List.drop_left']
  · intro hd
    refine ⟨l2.take (l2.length - l1.length), ?_⟩
    have h2 := List.take_append_drop (l2.length - l1.length) l2
    rw [hd] at h2
    exact h2

/-! ### C1: the SAN wildcard rule -/

/-- C1 counterexample: the claim says configured pattern `*.example.com`
matches presented DNS name `www.example.com`; in the code the wildcard rule
is applied to the presented certificate entry (passed as `pattern`), not to
the configured string, so a certificate presenting `www.example.com` is NOT
matched by configured `*.example.com` (while a certificate presenting the
wildcard `*.example.com` does match configured `www.example.com`). -/
theorem c1_counterexample :
    dNSNameMatch "*.example.com".toList "www.example.com".toList = false ∧
    verifySubjectAltName
      { subjectAltNames := some [GeneralName.dns "www.example.com".toList]
        sha256Digest := [], diffToNotAfter := none }
      ["*.example.com".toList] = false ∧
    dNSNameMatch "www.example.com".toList "*.example.com".toList = true := by
  decide

/-- C1 (amended): in `dNSNameMatch(dNSName, pattern)` — called with the
configured SAN string as `dNSName` and the certificate's presented DNS entry
as `pattern` — a presented entry of the form `*.<suffix>` wildcard-matches a
configured string exactly when the configured string is longer than
`.<suffix>` and ends with `.<suffix>` (any subdomain depth); an
exactly-equal pair always matches. -/
theorem c1_wildcard_rule (configSan suffix : List Char) :
    (dNSNameMatch configSan ('*' :: '.' :: suffix) = true ↔
      ('.' :: suffix).length < configSan.length ∧ ('.' :: suffix) <:+ configSan) ∧
    dNSNameMatch configSan configSan = true := by
  constructor
  · by_cases heq : configSan = '*' :: '.' :: suffix
    · rw [dNSNameMatch, if_pos heq]
      subst heq
      refine ⟨fun _ => ⟨by simp, ⟨['*'], rfl⟩⟩, fun _ => rfl⟩
    · rw [dNSNameMatch, if_neg heq]
      by_cases hlen : configSan.length > ('*' :: '.' :: suffix).length - 1
      · rw [if_pos hlen]
        have hle : ('.' :: suffix).length ≤ configSan.length := by
          simp only [List.length_cons] at hlen ⊢
          omega
        rw [suffix_iff_drop_eq _ _ hle]
        simp only [List.length_cons] at hlen ⊢
        constructor
        · intro hd
          refine ⟨by omega, ?_⟩
          simpa using of_decide_eq_true hd
        · intro ⟨_, hd⟩
          simpa using decide_eq_true hd
      · rw [if_neg hlen]
        simp only [List.length_cons] at hlen ⊢
        constructor
        · intro hfalse
          exact absurd hfalse (by simp)
        · intro ⟨hl, _⟩
          omega
  · simp [dNSNameMatch]

/-! ### C10: certificates without DNS/URI SAN entries -/

/-- C10: with a non-empty configured SAN list, a certificate carrying no
subject-alternative-name extension, or only entries of types other than DNS
and URI, always fails SAN verification, so `verifyCertificate` rejects with
the `fail_verify_san` counter incremented, regardless of the configured
hash. -/
theorem c10_no_usable_san_entries (sans : List (List Char)) (cert : Certificate)
    (hs : sans ≠ [])
    (hcert : cert.subjectAltNames = none ∨
      ∃ entries, cert.subjectAltNames = some entries ∧
        ∀ gn ∈ entries, gn = GeneralName.other) :
    verifySubjectAltName cert sans = false ∧
    ∀ (hash : List Nat) (stats : SslStats),
      verifyCertificate { verify_subject_alt_name_list := sans
                          verify_certificate_hash := hash } cert stats =
        (0, { stats with fail_verify_san := stats.fail_verify_san + 1 }) := by
  have hv : verifySubjectAltName cert sans = false := by
    rcases hcert with hnone | ⟨entries, hsome, hall⟩
    · rw [verifySubjectAltName, hnone]
    · rw [verifySubjectAltName, hsome]
      simp only [List.any_eq_false]
      intro gn hgn
      rw [hall gn hgn]
      simp [altNameMatches]
  refine ⟨hv, fun hash stats => ?_⟩
  rw [verifyCertificate]
  rw [if_pos ⟨hs, hv⟩]

/-- C10 witness. -/
theorem c10_witness :
    verifySubjectAltName
      { subjectAltNames := some [GeneralName.other], sha256Digest := [1]
        diffToNotAfter := none } ["a".toList] = false := by
  exact (c10_no_usable_san_entries ["a".toList]
    { subjectAltNames := some [GeneralName.other], sha256Digest := [1]
      diffToNotAfter := none }
    (by decide)
    (Or.inr ⟨[GeneralName.other], rfl, by decide⟩)).1

/-! ### C3: verification mode determination -/

/-- C3: in `ContextImpl::ContextImpl`, the verify mode is `SSL_VERIFY_NONE`
when no CA certificate, no SAN list and no pinned hash are configured;
`SSL_VERIFY_PEER` when only a CA certificate is configured; escalated to
`SSL_VERIFY_PEER | SSL_VERIFY_FAIL_IF_NO_PEER_CERT` when a SAN list or a
pinned hash is additionally configured; and the certificate-verify callback
is registered exactly when the mode is not `SSL_VERIFY_NONE`. -/
theorem c3_verify_mode (config : ContextConfig) :
    (config.caCertFile = [] ∧ config.verifySubjectAltNameList = [] ∧
        config.verifyCertificateHash = [] →
      verifyModeOf config = SSL_VERIFY_NONE) ∧
    (config.caCertFile ≠ [] ∧ config.verifySubjectAltNameList = [] ∧
        config.verifyCertificateHash = [] →
      verifyModeOf config = SSL_VERIFY_PEER) ∧
    (config.caCertFile ≠ [] ∧
        (config.verifySubjectAltNameList ≠ [] ∨ config.verifyCertificateHash ≠ []) →
      verifyModeOf config = (SSL_VERIFY_PEER ||| SSL_VERIFY_FAIL_IF_NO_PEER_CERT)) ∧
    (verifyCallbackRegistered config = true ↔ verifyModeOf config ≠ SSL_VERIFY_NONE) := by
  refine ⟨?_, ?_, ?_, ?_⟩
  · rintro ⟨h1, h2, h3⟩
    simp [verifyModeOf, h1, h2, h3]
  · rintro ⟨h1, h2, h3⟩
    simp [verifyModeOf, h1, h2, h3]
  · rintro ⟨h1, h2 | h3⟩
    · by_cases h3 : config.verifyCertificateHash = []
      · simp [verifyModeOf, h1, h2, h3]
      · simp [verifyModeOf, h1, h2, h3]
    · simp [verifyModeOf, h1, h3]
  · simp [verifyCallbackRegistered]

/-- C3 witness. -/
theorem c3_witness :
    verifyModeOf { caCertFile := "ca.pem".toList
                   verifySubjectAltNameList := ["spiffe".toList]
                   verifyCertificateHash := [] } =
      (SSL_VERIFY_PEER ||| SSL_VERIFY_FAIL_IF_NO_PEER_CERT) := by
  exact (c3_verify_mode _).2.2.1 ⟨by decide, Or.inl (by decide)⟩

/-! ### C4: the verification pipeline after chain validation -/

/-- C4: after successful chain validation, `verifyCertificate` first checks
the SAN list: a non-empty list with no matching entry rejects (result 0)
incrementing only `fail_verify_san`, independently of the configured hash
(the hash check is not evaluated).  Otherwise, a configured pinned hash
(`:`-stripped and hex-decoded at construction) rejects exactly when the
certificate's full-encoding SHA-256 differs, incrementing only
`fail_verify_cert_hash`.  Otherwise it accepts with the counters
untouched. -/
theorem c4_verify_pipeline (config : ContextConfig) (cert : Certificate)
    (stats : SslStats) :
    (config.verifySubjectAltNameList ≠ [] →
      verifySubjectAltName cert config.verifySubjectAltNameList = false →
      verifyCertificate (contextOf config) cert stats =
        (0, { stats with fail_verify_san := stats.fail_verify_san + 1 })) ∧
    ((config.verifySubjectAltNameList = [] ∨
        verifySubjectAltName cert config.verifySubjectAltNameList = true) →
      hexDecode (stripColons config.verifyCertificateHash) ≠ [] →
      (((verifyCertificate (contextOf config) cert stats).1 = 0 ↔
          cert.sha256Digest ≠ hexDecode (stripColons config.verifyCertificateHash)) ∧
        (cert.sha256Digest ≠ hexDecode (stripColons config.verifyCertificateHash) →
          verifyCertificate (contextOf config) cert stats =
            (0, { stats with
                    fail_verify_cert_hash := stats.fail_verify_cert_hash + 1 })))) ∧
    ((config.verifySubjectAltNameList = [] ∨
        verifySubjectAltName cert config.verifySubjectAltNameList = true) →
      (hexDecode (stripColons config.verifyCertificateHash) = [] ∨
        cert.sha256Digest = hexDecode (stripColons config.verifyCertificateHash)) →
      verifyCertificate (contextOf config) cert stats = (1, stats)) := by
  have hctx1 : (contextOf config).verify_subject_alt_name_list =
      config.verifySubjectAltNameList := rfl
  have hctx2 : (contextOf config).verify_certificate_hash =
      hexDecode (stripColons config.verifyCertificateHash) := rfl
  refine ⟨?_, ?_, ?_⟩
  · intro hs hv
    rw [verifyCertificate, hctx1, hctx2, if_pos ⟨hs, hv⟩]
  · intro hsan hh
    have hnot : ¬((contextOf config).verify_subject_alt_name_list ≠ [] ∧
        verifySubjectAltName cert (contextOf config).verify_subject_alt_name_list
          = false) := by
      rw [hctx1]
      rcases hsan with h | h
      · simp [h]
      · simp [h]
    by_cases hdig :
        cert.sha256Digest = hexDecode (stripColons config.verifyCertificateHash)
    · have hhashok : ¬((contextOf config).verify_certificate_hash ≠ [] ∧
          verifyCertificateHash cert (contextOf config).verify_certificate_hash
            = false) := by
        rw [hctx2]
        simp [verifyCertificateHash, hdig]
      rw [verifyCertificate, if_neg hnot, if_neg hhashok]
      simp [hdig]
    · have hhashbad : ((contextOf config).verify_certificate_hash ≠ [] ∧
          verifyCertificateHash cert (contextOf config).verify_certificate_hash
            = false) := by
        rw [hctx2]
        exact ⟨hh, by simp [verifyCertificateHash, hdig]⟩
      rw [verifyCertificate, if_neg hnot, if_pos hhashbad]
      simp [hdig]
  · intro hsan hh
    have hnot : ¬((contextOf config).verify_subject_alt_name_list ≠ [] ∧
        verifySubjectAltName cert (contextOf config).verify_subject_alt_name_list
          = false) := by
      rw [hctx1]
      rcases hsan with h | h
      · simp [h]
      · simp [h]
    have hhashok : ¬((contextOf config).verify_certificate_hash ≠ [] ∧
        verifyCertificateHash cert (contextOf config).verify_certificate_hash
          = false) := by
      rw [hctx2]
      rcases hh with h | h
      · simp [h]
      · simp [verifyCertificateHash, h]
    rw [verifyCertificate, if_neg hnot, if_neg hhashok]

/-- C4 witness: a certificate whose digest differs from the configured pin
(`"aa"`, decoding to byte 170) is rejected with only the hash-mismatch
counter incremented. -/
theorem c4_witness :
    verifyCertificate
      (contextOf { caCertFile := []
                   verifySubjectAltNameList := []
                   verifyCertificateHash := "aa".toList })
      { subjectAltNames := none, sha256Digest := [0], diffToNotAfter := none }
      { fail_verify_error := 0, fail_verify_san := 0, fail_verify_cert_hash := 0 } =
      (0, { fail_verify_error := 0, fail_verify_san := 0
            fail_verify_cert_hash := 1 }) := by
  exact ((c4_verify_pipeline
    { caCertFile := [], verifySubjectAltNameList := []
      verifyCertificateHash := "aa".toList }
    { subjectAltNames := none, sha256Digest := [0], diffToNotAfter := none }
    { fail_verify_error := 0, fail_verify_san := 0
      fail_verify_cert_hash := 0 }).2.1
    (Or.inl rfl) (by decide)).2 (by decide)

/-! ### C9: certificate expiry queries -/

/-- C9 counterexample: the claim says the per-certificate days-until-expiry
query clamps the negative difference of an already-expired certificate to 0;
`getDaysUntilExpiration` actually returns the negative value unchanged —
clamping happens only in the `daysUntilFirstCertExpires` aggregation. -/
theorem c9_counterexample :
    getDaysUntilExpiration
      (some { subjectAltNames := none, sha256Digest := []
              diffToNotAfter := some (-5) }) = -5 ∧
    ((-5 : Int) ≠ 0) ∧
    daysUntilFirstCertExpires
      (some { subjectAltNames := none, sha256Digest := []
              diffToNotAfter := some (-5) }) none = 0 := by
  decide

/-- C9 (amended): the per-certificate query returns the signed difference
unchanged (0 only when the time-diff call fails) and returns the `int`
maximum 2147483647 for an absent certificate; the aggregate
`daysUntilFirstCertExpires` clamps a negative minimum to 0; an absent
certificate contributes 2147483647 and therefore never lowers the
aggregate below a present certificate's value. -/
theorem c9_expiry_queries (cert : Certificate) (d : Int)
    (ca chain : Option Certificate) :
    (getDaysUntilExpiration none = 2147483647) ∧
    (cert.diffToNotAfter = some d → getDaysUntilExpiration (some cert) = d) ∧
    (cert.diffToNotAfter = none → getDaysUntilExpiration (some cert) = 0) ∧
    (min (getDaysUntilExpiration chain) (getDaysUntilExpiration ca) < 0 →
      daysUntilFirstCertExpires ca chain = 0) ∧
    (0 ≤ min (getDaysUntilExpiration chain) (getDaysUntilExpiration ca) →
      (daysUntilFirstCertExpires ca chain : Int) =
        min (getDaysUntilExpiration chain) (getDaysUntilExpiration ca)) ∧
    (cert.diffToNotAfter = some d → 0 ≤ d → d ≤ 2147483647 →
      daysUntilFirstCertExpires none (some cert) = d.toNat) := by
  refine ⟨rfl, ?_, ?_, ?_, ?_, ?_⟩
  · intro h
    rw [getDaysUntilExpiration, h]
  · intro h
    rw [getDaysUntilExpiration, h]
  · intro h
    rw [daysUntilFirstCertExpires, if_pos h]
  · intro h
    rw [daysUntilFirstCertExpires, if_neg (by omega)]
    omega
  · intro hd h0 hmax
    rw [daysUntilFirstCertExpires]
    have hcert : getDaysUntilExpiration (some cert) = d := by
      rw [getDaysUntilExpiration, hd]
    have hnone : getDaysUntilExpiration none = 2147483647 := rfl
    rw [hcert, hnone, if_neg (by omega)]
    omega

/-- C9 witness. -/
theorem c9_witness :
    daysUntilFirstCertExpires none
      (some { subjectAltNames := none, sha256Digest := []
              diffToNotAfter := some 30 }) = 30 := by
  exact (c9_expiry_queries
    { subjectAltNames := none, sha256Digest := [], diffToNotAfter := some 30 }
    30 none none).2.2.2.2.2 rfl (by decide) (by decide)

/-! ### C5: the session-id context digest -/

/-- Folding list-append over a list is appending the flattened map. -/
theorem foldl_append_flatten {α β : Type} (f : α → List β) (l : List α)
    (init : List β) :
    l.foldl (fun m x => m ++ f x) init = init ++ (l.map f).flatten := by
  induction l generalizing init with
  | nil => simp
  | cons x xs ih => simp [ih, List.append_assoc]

/-- C5: the session-id context digest is SHA-256 over, in fixed order, the
seed `"envoy"`, then — only when a CA certificate is configured — the CA
certificate's own SHA-256 digest, each SAN pattern's bytes in list order and
the pinned-hash bytes; identical inputs give identical digests; with no CA
the digest is the seed-only digest, which is non-empty. -/
theorem c5_session_context_digest (sha256 : List Nat → List Nat)
    (h32 : ∀ b, (sha256 b).length = 32)
    (ca : Certificate) (sans : List (List Char)) (hash : List Nat) :
    (sessionContextDigest sha256 (some ca) sans hash =
      sha256 (envoySeed ++ ca.sha256Digest ++
        (sans.map (fun s => s.map Char.toNat)).flatten ++ hash)) ∧
    (∀ (ca2 : Option Certificate) (sans2 : List (List Char)) (hash2 : List Nat),
      ca2 = some ca → sans2 = sans → hash2 = hash →
      sessionContextDigest sha256 ca2 sans2 hash2 =
        sessionContextDigest sha256 (some ca) sans hash) ∧
    (sessionContextDigest sha256 none sans hash = sha256 envoySeed) ∧
    sessionContextDigest sha256 none sans hash ≠ [] := by
  have hinput : sessionContextInput (some ca) sans hash =
      envoySeed ++ ca.sha256Digest ++
        (sans.map (fun s => s.map Char.toNat)).flatten ++ hash := by
    rw [sessionContextInput]
    simp only [List.nil_append]
    rw [foldl_append_flatten]
  have hnone : sessionContextInput none sans hash = envoySeed := by
    simp [sessionContextInput]
  refine ⟨?_, ?_, ?_, ?_⟩
  · rw [sessionContextDigest, hinput]
  · intro ca2 sans2 hash2 h1 h2 h3
    rw [h1, h2, h3]
  · rw [sessionContextDigest, hnone]
  · intro hemp
    have hlen := h32 (sessionContextInput none sans hash)
    rw [show sha256 (sessionContextInput none sans hash) =
        sessionContextDigest sha256 none sans hash from rfl, hemp] at hlen
    simp at hlen

/-- C5 witness. -/
theorem c5_witness :
    sessionContextDigest (fun _ => List.replicate 32 0) none [] [] ≠ [] := by
  exact (c5_session_context_digest (fun _ => List.replicate 32 0)
    (fun b => by simp)
    { subjectAltNames := none, sha256Digest := [], diffToNotAfter := none }
    [] []).2.2.2

/-! ### C7: session ticket key parsing -/

/-- Success of the parsing loop (from any start index) is exactly all blobs
having length 80. -/
theorem parseFrom_isOk_iff (blobs : List (List Nat)) :
    ∀ i, (parseSessionTicketKeysFrom i blobs).isOk = true ↔
      ∀ b ∈ blobs, b.length = 80 := by
  induction blobs with
  | nil => intro i; simp [parseSessionTicketKeysFrom, Except.isOk, Except.toBool]
  | cons b rest ih =>
    intro i
    by_cases hb : b.length = 80
    · have hsame : (parseSessionTicketKeysFrom i (b :: rest)).isOk =
          (parseSessionTicketKeysFrom (i + 1) rest).isOk := by
        rw [parseSessionTicketKeysFrom, if_neg (by omega)]
        cases parseSessionTicketKeysFrom (i + 1) rest <;>
          simp [Except.isOk, Except.toBool]
      rw [hsame, ih (i + 1)]
      simp [List.forall_mem_cons, hb]
    · rw [parseSessionTicketKeysFrom, if_pos hb]
      simp only [Except.isOk, Except.toBool]
      simp [hb]

/-- A parse failure (from any start index) points at a blob of the reported
non-80 length, all earlier blobs being well-formed. -/
theorem parseFrom_error_shape (blobs : List (List Nat)) :
    ∀ i e, parseSessionTicketKeysFrom i blobs = .error e →
      e.expected = 80 ∧ i ≤ e.index ∧ e.index - i < blobs.length ∧
      (blobs.getD (e.index - i) []).length = e.observed ∧ e.observed ≠ 80 := by
  induction blobs with
  | nil => intro i e h; exact absurd h (by rw [parseSessionTicketKeysFrom]; simp)
  | cons b rest ih =>
    intro i e h
    by_cases hb : b.length = 80
    · rw [parseSessionTicketKeysFrom, if_neg (by omega)] at h
      cases hr : parseSessionTicketKeysFrom (i + 1) rest with
      | error e2 =>
        rw [hr] at h
        cases h
        obtain ⟨h1, h2, h3, h4, h5⟩ := ih (i + 1) e hr
        refine ⟨h1, by omega, by simp; omega, ?_, h5⟩
        have : e.index - i = (e.index - (i + 1)) + 1 := by omega
        rw [this]
        simpa using h4
      | ok keys =>
        rw [hr] at h
        exact absurd h (by simp)
    · rw [parseSessionTicketKeysFrom, if_pos hb] at h
      cases h
      exact ⟨rfl, le_refl i, by simp, by simp, hb⟩

/-- When all blobs are 80 bytes the loop splits each, in order, into
name (16) ‖ hmac_key (32) ‖ aes_key (32). -/
theorem parseFrom_ok_map (blobs : List (List Nat)) :
    ∀ i, (∀ b ∈ blobs, b.length = 80) →
      parseSessionTicketKeysFrom i blobs = .ok (blobs.map (fun b =>
        { name := b.take 16, hmac_key := (b.drop 16).take 32
          aes_key := (b.drop 48).take 32 })) := by
  induction blobs with
  | nil => intro i _; rw [parseSessionTicketKeysFrom]; rfl
  | cons b rest ih =>
    intro i hall
    rw [parseSessionTicketKeysFrom,
      if_neg (by simpa using hall b (by simp)),
      ih (i + 1) (fun x hx => hall x (by simp [hx]))]
    rfl

/-- C7: configuration parsing of ticket key blobs fails exactly when some
blob's length differs from 80; the error carries the offending index, the
observed length and the expected length 80; on success each blob is split in
order into a 16-byte name, a 32-byte HMAC key and a 32-byte AES key. -/
theorem c7_ticket_key_blob_lengths (blobs : List (List Nat)) :
    ((parseSessionTicketKeys blobs).isOk = true ↔ ∀ b ∈ blobs, b.length = 80) ∧
    (∀ e, parseSessionTicketKeys blobs = .error e →
      e.expected = 80 ∧ e.index < blobs.length ∧
      (blobs.getD e.index []).length = e.observed ∧ e.observed ≠ 80) ∧
    ((∀ b ∈ blobs, b.length = 80) →
      parseSessionTicketKeys blobs = .ok (blobs.map (fun b =>
        { name := b.take 16, hmac_key := (b.drop 16).take 32
          aes_key := (b.drop 48).take 32 }))) := by
  refine ⟨parseFrom_isOk_iff blobs 0, ?_, parseFrom_ok_map blobs 0⟩
  intro e h
  obtain ⟨h1, _, h3, h4, h5⟩ := parseFrom_error_shape blobs 0 e h
  simp only [Nat.sub_zero] at h3 h4
  exact ⟨h1, h3, h4, h5⟩

/-- C7 witness: a 79-byte blob at index 0 is rejected reporting lengths 79
and 80. -/
theorem c7_witness :
    parseSessionTicketKeys [List.replicate 80 7, List.replicate 79 3] =
        .error { index := 1, observed := 79, expected := 80 } ∧
    (parseSessionTicketKeys [List.replicate 80 7]).isOk = true := by
  constructor
  · rfl
  · exact (c7_ticket_key_blob_lengths [List.replicate 80 7]).1.mpr (by decide)

/-! ### C2: session ticket encrypt/decrypt -/

/-- Default element for positional access into a key list. -/
def defaultKey : SessionTicketKey := { name := [], hmac_key := [], aes_key := [] }

/-- The out-parameter state after a successful decrypt with `key`: HMAC and
cipher initialized with that key's material and the presented iv; the
`key_name`/`iv` buffers are not written on the decrypt path. -/
def decryptSuccessState (key : SessionTicketKey) (iv : List Nat) : TicketState :=
  { emptyTicketState with
      hmac_key_used := some key.hmac_key
      cipher_key := some key.aes_key
      cipher_iv := some iv }

/-- A non-matching front key is skipped and the `is_enc_key` flag drops to
`false`. -/
theorem decryptLoop_skip (key : SessionTicketKey) (rest : List SessionTicketKey)
    (name iv : List Nat) (hOk dOk b : Bool) (hk : key.name ≠ name) :
    sessionTicketDecryptLoop (key :: rest) name iv hOk dOk b =
      sessionTicketDecryptLoop rest name iv hOk dOk false := by
  rw [sessionTicketDecryptLoop, if_neg hk]

/-- When no key name matches, the scan returns 0 from any flag state. -/
theorem decryptLoop_no_match (name iv : List Nat) (hOk dOk : Bool) :
    ∀ (keys : List SessionTicketKey) (b : Bool), (∀ k ∈ keys, k.name ≠ name) →
      sessionTicketDecryptLoop keys name iv hOk dOk b = (0, emptyTicketState) := by
  intro keys
  induction keys with
  | nil => intro b _; rw [sessionTicketDecryptLoop]
  | cons k rest ih =>
    intro b hall
    rw [decryptLoop_skip k rest name iv hOk dOk b (hall k (by simp))]
    exact ih false (fun x hx => hall x (by simp [hx]))

/-- With the flag already `false`, the first matching key (at position `i`,
all earlier names differing) yields result 2 with that key's material. -/
theorem decryptLoop_rotate (name iv : List Nat) :
    ∀ (keys : List SessionTicketKey) (i : Nat), i < keys.length →
      (∀ j, j < i → (keys.getD j defaultKey).name ≠ name) →
      (keys.getD i defaultKey).name = name →
      sessionTicketDecryptLoop keys name iv true true false =
        (2, decryptSuccessState (keys.getD i defaultKey) iv) := by
  intro keys
  induction keys with
  | nil => intro i hi; simp at hi
  | cons k rest ih =>
    intro i hi hfirst hmatch
    cases i with
    | zero =>
      simp only [List.getD_cons_zero] at hmatch ⊢
      rw [sessionTicketDecryptLoop, if_pos hmatch]
      simp [decryptSuccessState, emptyTicketState]
    | succ j =>
      have hk : k.name ≠ name := by
        have := hfirst 0 (by omega)
        simpa using this
      rw [decryptLoop_skip k rest name iv true true false hk]
      simp only [List.getD_cons_succ] at hmatch ⊢
      exact ih j (by simpa using hi) (fun j2 hj2 => by
        have := hfirst (j2 + 1) (by omega)
        simpa using this) hmatch

/-- C2 (amended): `encrypt` fails (-1) on an empty key list, otherwise uses
the front key exclusively — its name is embedded in the ticket, the fresh
random iv is written, AES-256-CBC and HMAC-SHA256 are keyed from its
material — and fails (-1) when cipher or HMAC initialization fails.
`decrypt` of a ticket naming the front key accepts with 1 (no rotation); of
a ticket whose name first matches a later key `Ki` (`i ≥ 1`, all earlier
names differing) accepts with 2 (rotate) initialized with `Ki`'s material;
of a ticket naming no key returns 0 (rejected). -/
theorem c2_ticket_lifecycle (keys : List SessionTicketKey)
    (key : SessionTicketKey) (rest : List SessionTicketKey)
    (name iv fresh_iv : List Nat) (eOk hOk dOk : Bool) :
    (sessionTicketEncrypt [] fresh_iv eOk hOk = (-1, emptyTicketState)) ∧
    (sessionTicketEncrypt (key :: rest) fresh_iv true true =
      (1, { key_name_out := some key.name, iv_out := some fresh_iv,
            cipher_key := some key.aes_key, cipher_iv := some fresh_iv,
            hmac_key_used := some key.hmac_key })) ∧
    (eOk = false ∨ hOk = false →
      (sessionTicketEncrypt (key :: rest) fresh_iv eOk hOk).1 = -1) ∧
    (key.name = name →
      sessionTicketDecrypt (key :: rest) name iv true true =
        (1, decryptSuccessState key iv)) ∧
    (∀ i, 1 ≤ i → i < keys.length →
      (∀ j, j < i → (keys.getD j defaultKey).name ≠ name) →
      (keys.getD i defaultKey).name = name →
      sessionTicketDecrypt keys name iv true true =
        (2, decryptSuccessState (keys.getD i defaultKey) iv)) ∧
    ((∀ k ∈ keys, k.name ≠ name) →
      sessionTicketDecrypt keys name iv hOk dOk = (0, emptyTicketState)) := by
  refine ⟨rfl, rfl, ?_, ?_, ?_, ?_⟩
  · intro h
    rcases h with h | h <;> subst h
    · rw [sessionTicketEncrypt]
      simp
    · rw [sessionTicketEncrypt]
      cases eOk <;> simp
  · intro hmatch
    rw [sessionTicketDecrypt, sessionTicketDecryptLoop, if_pos hmatch]
    simp [decryptSuccessState, emptyTicketState]
  · intro i h1 hi hfirst hmatch
    rw [sessionTicketDecrypt]
    cases keys with
    | nil => simp at hi
    | cons k0 krest =>
      have hk0 : k0.name ≠ name := by
        have := hfirst 0 (by omega)
        simpa using this
      rw [decryptLoop_skip k0 krest name iv true true true hk0]
      cases i with
      | zero => omega
      | succ j =>
        simp only [List.getD_cons_succ] at hmatch ⊢
        exact decryptLoop_rotate name iv krest j (by simpa using hi)
          (fun j2 hj2 => by
            have := hfirst (j2 + 1) (by omega)
            simpa using this) hmatch
  · intro hall
    exact decryptLoop_no_match name iv hOk dOk keys true hall

/-- C2 counterexample: with two keys sharing a name but carrying different
material, a ticket tagged with the later key's name decrypts with result 1
(no rotation) and the front key's material — the claim demands result 2
(accepted-rotate) for a ticket whose name equals a later key. -/
theorem c2_counterexample :
    (([ { name := List.replicate 16 0, hmac_key := List.replicate 32 1
          aes_key := List.replicate 32 2 }
        , { name := List.replicate 16 0, hmac_key := List.replicate 32 3
            aes_key := List.replicate 32 4 } ].getD 1 defaultKey).name =
      List.replicate 16 0) ∧
    sessionTicketDecrypt
      [ { name := List.replicate 16 0, hmac_key := List.replicate 32 1
          aes_key := List.replicate 32 2 }
        , { name := List.replicate 16 0, hmac_key := List.replicate 32 3
            aes_key := List.replicate 32 4 } ]
      (List.replicate 16 0) (List.replicate 16 9) true true =
      (1, decryptSuccessState
        { name := List.replicate 16 0, hmac_key := List.replicate 32 1
          aes_key := List.replicate 32 2 } (List.replicate 16 9)) ∧
    (1 : Int) ≠ 2 := by
  refine ⟨rfl, ?_, by decide⟩
  rw [sessionTicketDecrypt, sessionTicketDecryptLoop, if_pos rfl]
  simp [decryptSuccessState, emptyTicketState]

/-- C2 witness: two keys with distinct names; a ticket tagged with the
second key's name rotates (result 2) using the second key's material. -/
theorem c2_witness :
    sessionTicketDecrypt
      [ { name := List.replicate 16 0, hmac_key := List.replicate 32 1
          aes_key := List.replicate 32 2 }
        , { name := List.replicate 16 5, hmac_key := List.replicate 32 6
            aes_key := List.replicate 32 7 } ]
      (List.replicate 16 5) (List.replicate 16 9) true true =
      (2, decryptSuccessState
        { name := List.replicate 16 5, hmac_key := List.replicate 32 6
          aes_key := List.replicate 32 7 } (List.replicate 16 9)) := by
  have h := (c2_ticket_lifecycle
    [ { name := List.replicate 16 0, hmac_key := List.replicate 32 1
        aes_key := List.replicate 32 2 }
      , { name := List.replicate 16 5, hmac_key := List.replicate 32 6
          aes_key := List.replicate 32 7 } ]
    defaultKey [] (List.replicate 16 5) (List.replicate 16 9) [] true true
    true).2.2.2.2.1 1 (by omega) (by decide) (fun j hj => by
      interval_cases j
      decide) (by decide)
  simpa using h

/-! ### ALPN split lemmas -/

/-- The comma split is never the empty list of segments. -/
theorem splitOnComma_ne_nil (l : List Char) : splitOnComma l ≠ [] := by
  cases l with
  | nil => simp [splitOnComma]
  | cons c rest =>
    rw [splitOnComma]
    by_cases hc : c = ','
    · simp [hc]
    · rw [if_neg hc]
      cases splitOnComma rest <;> simp

/-- A comma-free string is a single segment. -/
theorem splitOnComma_no_comma (s : List Char) (hs : ',' ∉ s) :
    splitOnComma s = [s] := by
  induction s with
  | nil => rfl
  | cons c rest ih =>
    have hc : c ≠ ',' := fun h => hs (by simp [h])
    rw [splitOnComma, if_neg hc, ih (fun h => hs (by simp [h]))]

/-- Splitting a comma-free prefix followed by a comma peels one segment. -/
theorem splitOnComma_append_comma (s t : List Char) (hs : ',' ∉ s) :
    splitOnComma (s ++ ',' :: t) = s :: splitOnComma t := by
  induction s with
  | nil => simp [splitOnComma]
  | cons c rest ih =>
    have hc : c ≠ ',' := fun h => hs (by simp [h])
    rw [List.cons_append, splitOnComma, if_neg hc,
      ih (fun h => hs (by simp [h]))]

/-- Splitting `n` equal comma-terminated blocks peels `n` equal segments. -/
theorem splitOnComma_blocks (c : Char) (hc : c ≠ ',') (m : Nat) :
    ∀ (n : Nat) (t : List Char),
      splitOnComma ((List.replicate n (List.replicate m c ++ [','])).flatten ++ t) =
        List.replicate n (List.replicate m c) ++ splitOnComma t := by
  intro n
  induction n with
  | zero => intro t; simp
  | succ k ih =>
    intro t
    have hmem : ',' ∉ List.replicate m c := by
      intro h
      exact hc (List.eq_of_mem_replicate h).symm
    rw [List.replicate_succ, List.flatten_cons, List.append_assoc,
      show (List.replicate m c ++ [',']) ++
          ((List.replicate k (List.replicate m c ++ [','])).flatten ++ t) =
        List.replicate m c ++
          ',' :: ((List.replicate k (List.replicate m c ++ [','])).flatten ++ t)
        by simp,
      splitOnComma_append_comma _ _ hmem, ih t, List.replicate_succ]
    simp

/-- Segment lengths plus segment count reconstruct the input length plus
one: each segment boundary consumes one slot. -/
theorem splitOnComma_length_sum : ∀ l : List Char,
    ((splitOnComma l).map List.length).sum + (splitOnComma l).length =
      l.length + 1 := by
  intro l
  induction l with
  | nil => rfl
  | cons ch rest ih =>
    by_cases hc : ch = ','
    · rw [splitOnComma, if_pos hc]
      simp only [List.map_cons, List.length_nil, List.sum_cons, List.length_cons]
      omega
    · rw [splitOnComma, if_neg hc]
      cases hsp : splitOnComma rest with
      | nil => exact absurd hsp (splitOnComma_ne_nil rest)
      | cons s ss =>
        rw [hsp] at ih
        simp only [List.map_cons, List.sum_cons, List.length_cons] at ih ⊢
        omega

/-- Summing one-more-than-the-length over segments. -/
theorem sum_map_length_add_one {α : Type} :
    ∀ L : List (List α),
      (L.map (fun s => s.length + 1)).sum = (L.map List.length).sum + L.length := by
  intro L
  induction L with
  | nil => rfl
  | cons s ss ih =>
    simp only [List.map_cons, List.sum_cons, List.length_cons, ih]
    omega

/-- A successful non-empty ALPN parse passed both checks and produced the
length-prefixed concatenation of the comma-separated segments. -/
theorem parseAlpn_ok_eq (l : List Char) (hne : l ≠ []) (out : List Nat)
    (h : parseAlpnProtocols l = .ok out) :
    l.length < 65535 ∧
    ((splitOnComma l).any (fun seg => seg.length > 255)) = false ∧
    out = ((splitOnComma l).map
      (fun seg => seg.length :: seg.map Char.toNat)).flatten := by
  rw [parseAlpnProtocols, if_neg hne] at h
  by_cases h1 : l.length ≥ 65535
  · rw [if_pos h1] at h
    exact absurd h (by simp)
  · rw [if_neg h1] at h
    by_cases h2 : ((splitOnComma l).any (fun seg => seg.length > 255)) = true
    · rw [if_pos h2] at h
      exact absurd h (by simp)
    · rw [if_neg h2] at h
      simp only [Except.ok.injEq] at h
      exact ⟨by omega, by simpa using h2, h.symm⟩

/-- The byte vector produced for a non-empty input is one byte longer than
the input (one length slot per segment, commas consumed). -/
theorem parseAlpn_ok_length (l : List Char) (hne : l ≠ []) (out : List Nat)
    (h : parseAlpnProtocols l = .ok out) : out.length = l.length + 1 := by
  obtain ⟨_, _, rfl⟩ := parseAlpn_ok_eq l hne out h
  rw [List.length_flatten, List.map_map]
  have hmap : List.map (List.length ∘ fun seg => seg.length :: List.map Char.toNat seg)
      (splitOnComma l) = (splitOnComma l).map (fun seg => seg.length + 1) := by
    apply List.map_congr_left
    intro seg _
    simp
  rw [hmap, sum_map_length_add_one]
  have := splitOnComma_length_sum l
  omega

/-! ### C6: when ALPN encode fails -/

/-- C6 (amended): encode of the empty string yields the empty list; encode
of a non-empty string fails exactly when some single protocol name exceeds
255 bytes or the total encoded size (input length plus one) would exceed
65535 bytes. -/
theorem c6_alpn_failure_condition (l : List Char) (hne : l ≠ []) :
    (parseAlpnProtocols [] = .ok []) ∧
    ((parseAlpnProtocols l).isOk = false ↔
      (65535 < l.length + 1 ∨ ∃ s ∈ splitOnComma l, 255 < s.length)) := by
  refine ⟨rfl, ?_⟩
  rw [parseAlpnProtocols, if_neg hne]
  by_cases h1 : l.length ≥ 65535
  · rw [if_pos h1]
    simp only [Except.isOk, Except.toBool]
    constructor
    · intro _
      exact Or.inl (by omega)
    · intro _
      trivial
  · rw [if_neg h1]
    by_cases h2 : ((splitOnComma l).any (fun seg => seg.length > 255)) = true
    · rw [if_pos h2]
      simp only [Except.isOk, Except.toBool]
      constructor
      · intro _
        simp only [List.any_eq_true, decide_eq_true_eq] at h2
        obtain ⟨s, hs, hlen⟩ := h2
        exact Or.inr ⟨s, hs, hlen⟩
      · intro _
        trivial
    · rw [if_neg h2]
      simp only [Except.isOk, Except.toBool]
      constructor
      · intro hfalse
        exact absurd hfalse (by simp)
      · intro hcase
        rcases hcase with hbig | ⟨s, hs, hlen⟩
        · omega
        · refine absurd ?_ h2
          simp only [List.any_eq_true, decide_eq_true_eq]
          exact ⟨s, hs, hlen⟩

/-- C6 witness. -/
theorem c6_witness :
    (parseAlpnProtocols ['h', '2']).isOk = false ↔
      (65535 < (['h', '2'] : List Char).length + 1 ∨
        ∃ s ∈ splitOnComma ['h', '2'], 255 < s.length) := by
  exact (c6_alpn_failure_condition ['h', '2'] (by decide)).2

/-- The boundary input for C6: 255 comma-terminated 255-byte names followed
by a 254-byte name — 65534 input bytes, 65535 encoded bytes, every name
within the 255-byte limit. -/
def alpnBoundaryInput : List Char :=
  (List.replicate 255 (List.replicate 255 'a' ++ [','])).flatten ++
    List.replicate 254 'a'

/-- C6 counterexample: the claim says encode fails when the total encoded
size would reach 65535 bytes; this input encodes successfully to exactly
65535 bytes (the code only rejects inputs of length ≥ 65535, i.e. encoded
size ≥ 65536). -/
theorem c6_counterexample :
    alpnBoundaryInput.length + 1 = 65535 ∧
    (parseAlpnProtocols alpnBoundaryInput).isOk = true ∧
    alpnOutputLength (parseAlpnProtocols alpnBoundaryInput) = 65535 := by
  have hlen : alpnBoundaryInput.length = 65534 := by
    rw [alpnBoundaryInput, List.length_append, List.length_flatten,
      List.map_replicate, List.length_append, List.length_replicate,
      List.length_replicate, List.length_singleton, List.sum_replicate,
      smul_eq_mul]
  have hne : alpnBoundaryInput ≠ [] := by
    intro h
    rw [h] at hlen
    exact absurd hlen (by decide)
  have hsplit : splitOnComma alpnBoundaryInput =
      List.replicate 255 (List.replicate 255 'a') ++ [List.replicate 254 'a'] := by
    rw [alpnBoundaryInput, splitOnComma_blocks 'a' (by decide) 255 255,
      splitOnComma_no_comma _ (by
        intro h
        exact absurd (List.eq_of_mem_replicate h) (by decide))]
  have hany : ((splitOnComma alpnBoundaryInput).any
      (fun seg => seg.length > 255)) = false := by
    rw [hsplit]
    simp only [List.any_eq_false, decide_eq_true_eq]
    intro s hs
    rcases List.mem_append.mp hs with h | h
    · rw [List.eq_of_mem_replicate h, List.length_replicate]
      omega
    · simp only [List.mem_singleton] at h
      rw [h, List.length_replicate]
      omega
  have hok : parseAlpnProtocols alpnBoundaryInput =
      .ok ((splitOnComma alpnBoundaryInput).map
        (fun seg => seg.length :: seg.map Char.toNat)).flatten := by
    rw [parseAlpnProtocols, if_neg hne, if_neg (by omega), if_neg (by simp [hany])]
  refine ⟨by omega, by rw [hok]; rfl, ?_⟩
  have houtlen := parseAlpn_ok_length alpnBoundaryInput hne _ hok
  calc alpnOutputLength (parseAlpnProtocols alpnBoundaryInput)
      = ((splitOnComma alpnBoundaryInput).map
          (fun seg => seg.length :: seg.map Char.toNat)).flatten.length := by
        rw [hok]
        rfl
    _ = alpnBoundaryInput.length + 1 := houtlen
    _ = 65535 := by omega

/-! ### C8: shape of a successful ALPN encoding -/

/-- C8 (amended): a successful encode is a concatenation of length-prefixed
entries whose one-byte length prefix is between 0 and 255 (a zero-length
name is not rejected), and the total encoded size is at most 65535 bytes. -/
theorem c8_alpn_encoding_shape (l : List Char) (out : List Nat)
    (h : parseAlpnProtocols l = .ok out) :
    (∃ segs : List (List Nat),
      out = (segs.map (fun s => s.length :: s)).flatten ∧
      ∀ s ∈ segs, s.length ≤ 255) ∧
    out.length ≤ 65535 := by
  by_cases hne : l = []
  · subst hne
    have hout : out = [] := by
      rw [parseAlpnProtocols] at h
      simpa using h.symm
    subst hout
    exact ⟨⟨[], rfl, by simp⟩, by simp⟩
  · obtain ⟨h1, h2, rfl⟩ := parseAlpn_ok_eq l hne out h
    constructor
    · refine ⟨(splitOnComma l).map (fun seg => seg.map Char.toNat), ?_, ?_⟩
      · rw [List.map_map]
        apply congrArg List.flatten
        apply List.map_congr_left
        intro seg _
        simp
      · intro s hs
        rw [List.mem_map] at hs
        obtain ⟨seg, hseg, rfl⟩ := hs
        rw [List.length_map]
        simp only [List.any_eq_false, decide_eq_true_eq] at h2
        exact Nat.le_of_lt_succ (by have := h2 seg hseg; omega)
    · have := parseAlpn_ok_length l hne _ h
      omega

/-- C8 witness: `"h2"` encodes to the three bytes `[2, 104, 50]`, which stay
within the 65535-byte bound. -/
theorem c8_witness : ([2, 104, 50] : List Nat).length ≤ 65535 := by
  exact (c8_alpn_encoding_shape ['h', '2'] [2, 104, 50] rfl).2

/-- The boundary input for C8: a leading comma (producing a zero-length
name) followed by 255 comma-terminated 255-byte names and a 253-byte name —
65534 input bytes. -/
def alpnZeroBoundaryInput : List Char :=
  ',' :: ((List.replicate 255 (List.replicate 255 'b' ++ [','])).flatten ++
    List.replicate 253 'b')

/-- C8 counterexample: the claim says every entry's length prefix is between
1 and 255 and the total encoded size is less than 65535; this input encodes
successfully with a first entry of length prefix 0 and a total encoded size
of exactly 65535 bytes. -/
theorem c8_counterexample :
    (parseAlpnProtocols alpnZeroBoundaryInput).isOk = true ∧
    alpnOutputHead (parseAlpnProtocols alpnZeroBoundaryInput) = some 0 ∧
    alpnOutputLength (parseAlpnProtocols alpnZeroBoundaryInput) = 65535 := by
  have hlen : alpnZeroBoundaryInput.length = 65534 := by
    rw [alpnZeroBoundaryInput, List.length_cons, List.length_append,
      List.length_flatten, List.map_replicate, List.length_append,
      List.length_replicate, List.length_replicate, List.length_singleton,
      List.sum_replicate, smul_eq_mul]
  have hne : alpnZeroBoundaryInput ≠ [] := by
    intro h
    rw [h] at hlen
    exact absurd hlen (by decide)
  have hsplit : splitOnComma alpnZeroBoundaryInput =
      [] :: (List.replicate 255 (List.replicate 255 'b') ++
        [List.replicate 253 'b']) := by
    rw [alpnZeroBoundaryInput, splitOnComma, if_pos rfl,
      splitOnComma_blocks 'b' (by decide) 255 255,
      splitOnComma_no_comma _ (by
        intro h
        exact absurd (List.eq_of_mem_replicate h) (by decide))]
  have hany : ((splitOnComma alpnZeroBoundaryInput).any
      (fun seg => seg.length > 255)) = false := by
    rw [hsplit]
    simp only [List.any_eq_false, decide_eq_true_eq]
    intro s hs
    rcases List.mem_cons.mp hs with h | h
    · rw [h]
      simp
    · rcases List.mem_append.mp h with h2 | h2
      · rw [List.eq_of_mem_replicate h2, List.length_replicate]
        omega
      · simp only [List.mem_singleton] at h2
        rw [h2, List.length_replicate]
        omega
  have hok : parseAlpnProtocols alpnZeroBoundaryInput =
      .ok ((splitOnComma alpnZeroBoundaryInput).map
        (fun seg => seg.length :: seg.map Char.toNat)).flatten := by
    rw [parseAlpnProtocols, if_neg hne, if_neg (by omega), if_neg (by simp [hany])]
  have houtlen := parseAlpn_ok_length alpnZeroBoundaryInput hne _ hok
  refine ⟨by rw [hok]; rfl, ?_, ?_⟩
  · rw [hok, hsplit]
    rfl
  · calc alpnOutputLength (parseAlpnProtocols alpnZeroBoundaryInput)
        = ((splitOnComma alpnZeroBoundaryInput).map
            (fun seg => seg.length :: seg.map Char.toNat)).flatten.length := by
          rw [hok]
          rfl
      _ = alpnZeroBoundaryInput.length + 1 := houtlen
      _ = 65535 := by omega

end Ssl
end Envoy
